import Mathlib

/-!
Verification development for the `indra_signor` export scripts.

The Python sources are shallowly embedded: Python strings are modelled as
`List Char` (`PyStr`), Python `str` methods as explicit recursive functions
with Python semantics, dictionaries with a fixed key set as structures, and
fallible code as `Except PyErr`.  Python `set` values are modelled as
deduplicated lists; theorems about the contents of a joined sentence string
are stated at the level of membership, since CPython leaves the iteration
order of a `set` unspecified.
-/

deriving instance DecidableEq for Except

/-- Python strings, modelled as their list of characters. -/
abbrev PyStr := List Char

/-- Coerce a Lean string literal to the `PyStr` model. -/
def pstr (s : String) : PyStr := s.data

/-- Python exceptions that the embedded fragments can raise. -/
inductive PyErr where
  | assertionError
  | indexError
  | keyError
  | attributeError
deriving DecidableEq

/-- Characters treated as whitespace by Python `str.strip()`. -/
def pyIsSpace (c : Char) : Bool :=
  c = ' ' || c = '\t' || c = '\n' || c = '\r' || c = '\x0b' || c = '\x0c'

/-- Python `s.strip()`: remove whitespace from both ends. -/
def pyStripWs (s : PyStr) : PyStr :=
  ((s.dropWhile pyIsSpace).reverse.dropWhile pyIsSpace).reverse

/-- Python `s.strip(c)` for a single character: remove `c` from both ends. -/
def pyStripChar (ch : Char) (s : PyStr) : PyStr :=
  ((s.dropWhile (· = ch)).reverse.dropWhile (· = ch)).reverse

/-- Python `s.split(sep)` for a one-character separator. -/
def pySplit (sep : Char) : PyStr → List PyStr
  | [] => [[]]
  | c :: rest =>
    if c = sep then [] :: pySplit sep rest
    else
      match pySplit sep rest with
      | [] => [[c]]
      | p :: ps => (c :: p) :: ps

/-- Python `sep.join(parts)` for a one-character separator. -/
def pyJoin (sep : Char) : List PyStr → PyStr
  | [] => []
  | [p] => p
  | p :: ps => p ++ sep :: pyJoin sep ps

/-- Python `s.split(sep, maxsplit=1)` when `sep` occurs, split at the first
occurrence; `none` models the `ValueError` of unpacking when `sep` is absent. -/
def splitFirstColon : PyStr → Option (PyStr × PyStr)
  | [] => none
  | c :: rest =>
    if c = ':' then some ([], rest)
    else
      match splitFirstColon rest with
      | some (k, v) => some (c :: k, v)
      | none => none

/-- Python `s.lower()` (ASCII fragment). -/
def pyLower (s : PyStr) : PyStr := s.map Char.toLower

/-- Python `s.capitalize()`: first character upper-cased, the rest lower-cased. -/
def pyCapitalize : PyStr → PyStr
  | [] => []
  | c :: rest => Char.toUpper c :: rest.map Char.toLower

/-- Python substring test `needle in hay` (contiguous substring). -/
def pyContains (hay needle : PyStr) : Bool :=
  needle.isPrefixOf hay ||
    match hay with
    | [] => false
    | _ :: t => pyContains t needle

/-- Python string comparison `a <= b` (code-point lexicographic). -/
def pyStrLe : PyStr → PyStr → Bool
  | [], _ => true
  | _ :: _, [] => false
  | a :: as_, b :: bs => if a = b then pyStrLe as_ bs else decide (a.toNat < b.toNat)

/-- Insert into a sorted list, preserving Python `sorted` semantics. -/
def pyInsertSorted (x : PyStr) : List PyStr → List PyStr
  | [] => [x]
  | y :: ys => if pyStrLe x y then x :: y :: ys else y :: pyInsertSorted x ys

/-- Python `sorted(strings)` (insertion sort under the code-point order). -/
def pySorted : List PyStr → List PyStr
  | [] => []
  | x :: xs => pyInsertSorted x (pySorted xs)

/-- Deduplicate keeping first occurrences; models building a Python `set`
from a list, represented as the list of distinct elements. -/
def orderedNubAux {α : Type} [DecidableEq α] : List α → List α → List α
  | [], _ => []
  | x :: xs, seen => if x ∈ seen then orderedNubAux xs seen else x :: orderedNubAux xs (x :: seen)

/-- The distinct elements of a list, first occurrences first. -/
def orderedNub {α : Type} [DecidableEq α] (l : List α) : List α := orderedNubAux l []

/-- One rewrite pass of Python `s.replace(pat, rep)`, driven by a character
budget that is at least the length of `s` (Python replace scans left to
right, non-overlapping). -/
def pyReplaceFuel (pat rep : PyStr) : Nat → PyStr → PyStr
  | 0, s => s
  | _ + 1, [] => []
  | fuel + 1, c :: rest =>
    if pat ≠ [] ∧ pat.isPrefixOf (c :: rest) then
      rep ++ pyReplaceFuel pat rep fuel ((c :: rest).drop pat.length)
    else
      c :: pyReplaceFuel pat rep fuel rest

/-- Python `s.replace(pat, rep)` for a non-empty `pat`. -/
def pyReplace (pat rep s : PyStr) : PyStr := pyReplaceFuel pat rep s.length s

/-- A parsed curator comment, `process_comment`'s result: a dict with the
six buckets that the parser ever populates.  A key is "present" in the
Python dict exactly when its list here is non-empty. -/
structure ParsedComment where
  sentence : List PyStr := []
  effect : List PyStr := []
  mechanism : List PyStr := []
  direct : List PyStr := []
  cell_data : List PyStr := []
  taxid : List PyStr := []
deriving DecidableEq

/-- Python truthiness of the comment dict: non-empty iff some bucket is. -/
def truthyC (c : ParsedComment) : Bool :=
  c.sentence ≠ [] || c.effect ≠ [] || c.mechanism ≠ [] ||
    c.direct ≠ [] || c.cell_data ≠ [] || c.taxid ≠ []

/-- The literal correction table `comment_mapping` of `export_curations.py`. -/
def comment_mapping : List (PyStr × PyStr) :=
  [ (pstr "Ser15|EFFECT: down-regulates quantity by destabilization",
     pstr "RESIDUE:S15;EFFECT:down-regulates quantity by destabilization"),
    (pstr "Tyr15", pstr "RESIDUE:Y15"),
    (pstr "Thr14", pstr "RESIDUE:T14"),
    (pstr "Ser15", pstr "RESIDUE:S15"),
    (pstr "effect:down-regulates activity", pstr "EFFECT:down-regulates activity"),
    (pstr "effect:up-regulates activity", pstr "EFFECT:up-regulates activity"),
    (pstr "residue:tyr705", pstr "RESIDUE:Y705"),
    (pstr "direct:no", pstr "DIRECT:no"),
    (pstr "TAXID:9606;TISSUE:BTO:0000759", pstr "TAXID:9606;CELL:BTO:0000759"),
    (pstr "RESIDUE:S151;T753", pstr "RESIDUE:S151;RESIDUE:T753"),
    (pstr "RESIDUE:Y448; SENTENCE:adaptor protein 3BP2 serves as a binding protein and a physiological substrate of SHP-1. 3BP2 is phosphorylated on tyrosyl residue 448 in response to TCR activation, and the phosphorylation is required for T c",
     pstr "RESIDUE:Y448;SENTENCE:adaptor protein 3BP2 serves as a binding protein and a physiological substrate of SHP-1. 3BP2 is phosphorylated on tyrosyl residue 448 in response to TCR activation, and the phosphorylation is required for T c"),
    (pstr "sentence:Integrin-bound PTP-PEST dephosphorylates RhoGDI1.",
     pstr "SENTENCE:Integrin-bound PTP-PEST dephosphorylates RhoGDI1."),
    (pstr "EFFECT: dow-regulates quantity by degradation",
     pstr "EFFECT:down-regulates quantity by degradation") ]

/-- Association-list lookup, models Python `dict.get(key)`. -/
def mapLookup : List (PyStr × PyStr) → PyStr → Option PyStr
  | [], _ => none
  | (k, v) :: rest, key => if key = k then some v else mapLookup rest key

/-- The `allowed_keys` set of `process_comment`. -/
def allowed_keys : List PyStr :=
  [pstr "CELL", pstr "TAXID", pstr "DIRECT", pstr "EFFECT", pstr "SENTENCE",
   pstr "MECHANISM", pstr "RESIDUE"]

/-- The `if`/`elif` chain of `process_comment` appending a value to its
bucket; `RESIDUE` matches no branch and is dropped. -/
def addComment (d : ParsedComment) (key value : PyStr) : ParsedComment :=
  if key = pstr "SENTENCE" then { d with sentence := d.sentence ++ [value] }
  else if key = pstr "EFFECT" then { d with effect := d.effect ++ [value] }
  else if key = pstr "MECHANISM" then { d with mechanism := d.mechanism ++ [value] }
  else if key = pstr "DIRECT" then { d with direct := d.direct ++ [value] }
  else if key = pstr "CELL" then { d with cell_data := d.cell_data ++ [value] }
  else if key = pstr "TAXID" then { d with taxid := d.taxid ++ [value] }
  else d

/-- The segment loop of `process_comment`: `break` on a part without `:` or
with a key outside `allowed_keys`, returning what was accumulated so far. -/
def processParts : List PyStr → ParsedComment → ParsedComment
  | [], d => d
  | part :: rest, d =>
    match splitFirstColon (pyStripWs part) with
    | none => d
    | some (key, value) =>
      if key ∈ allowed_keys then processParts rest (addComment d key value) else d

/-- `process_comment` of `export_curations.py`. -/
def process_comment (comment : PyStr) : ParsedComment :=
  if comment = [] then {}
  else
    let comment := (mapLookup comment_mapping comment).getD comment
    processParts (pySplit ';' (pyStripChar ';' comment)) {}

/-- An INDRA agent as read by the export: a name and the optional
`db_refs.get('UP')` UniProt reference. -/
structure Agent where
  name : PyStr
  up : Option PyStr := none
deriving DecidableEq

/-- A modification statement (an instance of the run's `mod_class`):
enzyme, substrate, optional residue code and position. -/
structure ModStmt where
  enz : Agent
  sub : Agent
  residue : Option PyStr := none
  position : Option PyStr := none
deriving DecidableEq

/-- The four concrete regulation statement classes that `curations_to_rows`
dispatches on. -/
inductive RegType where
  | Activation
  | Inhibition
  | IncreaseAmount
  | DecreaseAmount
deriving DecidableEq

/-- A regulation statement: concrete class, `subj` and `obj`. -/
structure RegStmt where
  ty : RegType
  subj : Agent
  obj : Agent
deriving DecidableEq

/-- An INDRA evidence object as read by the export. -/
structure Evidence where
  text : Option PyStr := none
  pmid : Option PyStr := none
deriving DecidableEq

/-- A curation record as read by the export: `None`, or the value of its
`curator` field (an absent field is modelled as the empty string, which
Python treats identically under `cur.get('curator')` truthiness). -/
abbrev Cur := Option PyStr

/-- A `(mod_stmt, mod_ev, mod_cur, mod_comment)` tuple.  Real input tuples
carry `some` evidence; a tuple synthesized from a regulation tuple carries
that tuple's (possibly absent) evidence. -/
structure ModTuple where
  stmt : ModStmt
  ev : Option Evidence
  cur : Cur
  comment : ParsedComment
deriving DecidableEq

/-- A `(reg_stmt, reg_ev, reg_cur, reg_comment)` tuple.  Tuples synthesized
from a modification comment carry `none` evidence and curation. -/
structure RegTuple where
  stmt : RegStmt
  ev : Option Evidence
  cur : Cur
  comment : ParsedComment
deriving DecidableEq

/-- One element of the `curations` list handed to `curations_to_rows`. -/
inductive StmtTuple where
  | mod : ModTuple → StmtTuple
  | reg : RegTuple → StmtTuple
deriving DecidableEq

/-- `stmts_by_type[mod_class]`: the modification tuples, in input order. -/
def modsOf (curations : List StmtTuple) : List ModTuple :=
  curations.filterMap fun t =>
    match t with
    | .mod m => some m
    | .reg _ => none

/-- `stmts_by_type[cls]` for a concrete regulation class `cls`. -/
def regsOfTy (ty : RegType) (curations : List StmtTuple) : List RegTuple :=
  curations.filterMap fun t =>
    match t with
    | .mod _ => none
    | .reg r => if r.stmt.ty = ty then some r else none

/-- The INDRA `amino_acids` resource table (an external collaborator of the
scripts): one-letter residue code mapped to the lower-case `short_name`. -/
def amino_acids : List (PyStr × PyStr) :=
  [ (pstr "A", pstr "ala"), (pstr "R", pstr "arg"), (pstr "N", pstr "asn"),
    (pstr "D", pstr "asp"), (pstr "C", pstr "cys"), (pstr "E", pstr "glu"),
    (pstr "Q", pstr "gln"), (pstr "G", pstr "gly"), (pstr "H", pstr "his"),
    (pstr "I", pstr "ile"), (pstr "L", pstr "leu"), (pstr "K", pstr "lys"),
    (pstr "M", pstr "met"), (pstr "F", pstr "phe"), (pstr "P", pstr "pro"),
    (pstr "S", pstr "ser"), (pstr "T", pstr "thr"), (pstr "W", pstr "trp"),
    (pstr "Y", pstr "tyr"), (pstr "V", pstr "val") ]

/-- `sanitize_text` of `export_curations.py` (for a non-`None` argument). -/
def sanitize_text (text : PyStr) : PyStr :=
  let text := pyReplace (pstr "[XREF_BIBR - XREF_BIBR]") [] text
  let text := pyReplace (pstr "[XREF_BIBR]") [] text
  let text := pyReplace (pstr "[XREF_BIBR") [] text
  let text := pyReplace (pstr "XREF_BIBR") [] text
  let text := pyReplace (pstr "(XREF_SUPPLEMENTARY)") [] text
  pyStripWs text

/-- Python truthiness of an optional string (`None` and `''` are falsy). -/
def truthyOpt (o : Option PyStr) : Bool :=
  match o with
  | none => false
  | some s => s ≠ []

/-- A 26-field output row, fields in the order of `header`. -/
structure Row where
  entitya : PyStr
  typea : PyStr
  ida : Option PyStr
  databasea : PyStr
  entityb : PyStr
  typeb : PyStr
  idb : Option PyStr
  databaseb : PyStr
  effect : PyStr
  mechanism : PyStr
  residue : PyStr
  sequence : PyStr
  tax_id : PyStr
  cell_data : PyStr
  tissue_data : PyStr
  modulator_complex : PyStr
  target_complex : PyStr
  modificationa : PyStr
  modaseq : PyStr
  modificationb : PyStr
  modbseq : PyStr
  pmid : Option PyStr
  direct : PyStr
  notes : PyStr
  annotator : PyStr
  sentence : PyStr
deriving DecidableEq

/-- The type-derived default effect of lines 184-191 of
`export_curations.py` (reached when neither comment supplies one). -/
def defaultEffect : RegType → PyStr
  | .Activation => pstr "up-regulates"
  | .IncreaseAmount => pstr "up-regulates quantity"
  | .Inhibition => pstr "down-regulates"
  | .DecreaseAmount => pstr "down-regulates quantity"

/-- Lines 169 and 178-191: the EFFECT value of a candidate row, with the
`assert len(reg_comment['effect']) == 1` of line 179.  Line 181's
`elif mod_comment_effect:` tests the truthiness of the entry itself, so a
`None` or empty-string `mod_comment_effect` falls through to the
type-derived default. -/
def computeEffect (mod_comment reg_comment : ParsedComment) (ty : RegType) : Except PyErr PyStr :=
  let mod_comment_effect : Option PyStr :=
    if truthyC mod_comment ∧ mod_comment.effect ≠ [] then some (mod_comment.effect.headD [])
    else none
  if truthyC reg_comment ∧ reg_comment.effect ≠ [] then
    if reg_comment.effect.length = 1 then Except.ok (pyStripWs (reg_comment.effect.headD []))
    else Except.error PyErr.assertionError
  else
    if truthyOpt mod_comment_effect then Except.ok (pyStripWs (mod_comment_effect.getD []))
    else Except.ok (defaultEffect ty)

/-- Lines 193-198: the RESIDUE label, `amino_acids[residue]['short_name']`
capitalized and concatenated with the position; `KeyError` on an unknown
residue code. -/
def computeResidue (stmt : ModStmt) : Except PyErr PyStr :=
  if truthyOpt stmt.residue ∧ truthyOpt stmt.position then
    match mapLookup amino_acids (stmt.residue.getD []) with
    | some short_name => Except.ok (pyCapitalize short_name ++ stmt.position.getD [])
    | none => Except.error PyErr.keyError
  else
    Except.ok []

/-- Lines 200-209: the SENTENCE value, `'|'.join(sorted(set(parts)))`. -/
def computeSentence (mod_ev : Evidence) (reg_ev : Option Evidence)
    (mod_comment reg_comment : ParsedComment) : PyStr :=
  let sentence_parts :=
    (if truthyOpt mod_ev.text then [sanitize_text (mod_ev.text.getD [])] else []) ++
    (match reg_ev with
     | some rev => if truthyOpt rev.text then [sanitize_text (rev.text.getD [])] else []
     | none => []) ++
    (if mod_comment.sentence ≠ [] then mod_comment.sentence else []) ++
    (if truthyC reg_comment ∧ reg_comment.sentence ≠ [] then reg_comment.sentence else [])
  pyJoin '|' (pySorted (orderedNub sentence_parts))

/-- Lines 226-232: curator initials; `IndexError` when no curator is
available or the address has no dotted local part. -/
def computeCurator (mod_cur reg_cur : Cur) : Except PyErr PyStr := do
  let curators :=
    (match mod_cur with
     | some c => if c ≠ [] then [c] else []
     | none => []) ++
    (match reg_cur with
     | some c => if c ≠ [] then [c] else []
     | none => [])
  let first ←
    match pySorted curators with
    | [] => Except.error PyErr.indexError
    | c :: _ => Except.ok c
  let parts := pySplit '.' ((pySplit '@' first).headD [])
  let c0 ←
    match parts.headD [] with
    | [] => Except.error PyErr.indexError
    | ch :: _ => Except.ok ch
  let p1 ←
    match parts with
    | _ :: p1 :: _ => Except.ok p1
    | _ => Except.error PyErr.indexError
  Except.ok (c0 :: p1)

/-- The body of the `itertools.product` loop of `curations_to_rows`
(lines 167-251): one candidate row per (modification, regulation) pair. -/
def synthRow (mod_key : PyStr) (mt : ModTuple) (rt : RegTuple) : Except PyErr Row := do
  let enz := mt.stmt.enz
  let substrate := mt.stmt.sub
  let effect ← computeEffect mt.comment rt.comment rt.stmt.ty
  let residue ← computeResidue mt.stmt
  let mod_ev ←
    match mt.ev with
    | some e => Except.ok e
    | none => Except.error PyErr.attributeError
  let sentence := computeSentence mod_ev rt.ev mt.comment rt.comment
  let direct :=
    if mt.comment.direct ≠ [] ∧ pyLower (mt.comment.direct.headD []) = pstr "no"
    then pstr "NO" else pstr "YES"
  let taxid :=
    if rt.comment.taxid ≠ [] then rt.comment.taxid.headD []
    else if mt.comment.taxid ≠ [] then mt.comment.taxid.headD []
    else pstr "9606"
  let curator ← computeCurator mt.cur rt.cur
  Except.ok
    { entitya := enz.name, typea := pstr "protein", ida := enz.up, databasea := pstr "UNIPROT",
      entityb := substrate.name, typeb := pstr "protein", idb := substrate.up,
      databaseb := pstr "UNIPROT",
      effect := effect, mechanism := mod_key, residue := residue, sequence := [],
      tax_id := taxid, cell_data := [], tissue_data := [],
      modulator_complex := [], target_complex := [],
      modificationa := [], modaseq := [], modificationb := [], modbseq := [],
      pmid := mod_ev.pmid, direct := direct, notes := [], annotator := curator,
      sentence := sentence }

/-- Lines 113-141 of `export_curations.py`: with no regulation statement in
the group, scan each modification tuple's comment for an `effect`, assert it
is unique, classify it by substring, synthesize a placeholder regulation
tuple `(stmt_cls(Agent('X'), Agent('Y')), None, None, ...)` and pop the
`effect` from the modification comment.  Returns the updated modification
tuples and the per-class lists of synthesized regulation tuples.
`resolveModEffect` is the body of one loop iteration: the updated tuple and
the class and effect of the regulation tuple to synthesize, if any. -/
def resolveModEffect (mt : ModTuple) :
    Except PyErr (ModTuple × Option (RegType × PyStr)) :=
  if truthyC mt.comment ∧ mt.comment.effect ≠ [] then
    if mt.comment.effect.length = 1 then
      let effect := mt.comment.effect.headD []
      if pyContains (pyLower effect) (pstr "down-regulates") then
        let cls :=
          if (pstr "down-regulates quantity").isPrefixOf effect then RegType.DecreaseAmount
          else RegType.Inhibition
        Except.ok ({ mt with comment.effect := [] }, some (cls, effect))
      else if pyContains (pyLower effect) (pstr "up-regulates") then
        let cls :=
          if (pstr "up-regulates quantity").isPrefixOf effect then RegType.IncreaseAmount
          else RegType.Activation
        Except.ok ({ mt with comment.effect := [] }, some (cls, effect))
      else
        Except.ok (mt, none)
    else
      Except.error PyErr.assertionError
  else
    Except.ok (mt, none)

def resolveRegsFromMods :
    List ModTuple →
    Except PyErr (List ModTuple × List RegTuple × List RegTuple × List RegTuple × List RegTuple)
  | [] => Except.ok ([], [], [], [], [])
  | mt :: rest => do
    let (mt2, newReg) ← resolveModEffect mt
    let (ms, acts, inhs, incs, decs) ← resolveRegsFromMods rest
    match newReg with
    | none => Except.ok (mt2 :: ms, acts, inhs, incs, decs)
    | some (cls, effect) =>
      let reg : RegTuple :=
        { stmt := { ty := cls, subj := { name := pstr "X" }, obj := { name := pstr "Y" } },
          ev := none, cur := none, comment := { effect := [effect] } }
      match cls with
      | .Activation => Except.ok (mt2 :: ms, reg :: acts, inhs, incs, decs)
      | .Inhibition => Except.ok (mt2 :: ms, acts, reg :: inhs, incs, decs)
      | .IncreaseAmount => Except.ok (mt2 :: ms, acts, inhs, reg :: incs, decs)
      | .DecreaseAmount => Except.ok (mt2 :: ms, acts, inhs, incs, reg :: decs)

/-- Lines 146-154: with no modification statement in the group, scan the
Activation and Inhibition tuples; when the comment's `mechanism` equals
`[mod_key]`, synthesize `(mod_class(act_stmt.subj, act_stmt.obj), act_ev,
act_cur, dict())` and pop `mechanism` from the regulation comment.  Returns
the synthesized modification tuples and the updated regulation tuples. -/
def resolveModsFromRegs (mod_key : PyStr) :
    List RegTuple → List ModTuple × List RegTuple
  | [] => ([], [])
  | rt :: rest =>
    let (ms, rs) := resolveModsFromRegs mod_key rest
    if truthyC rt.comment ∧ rt.comment.mechanism = [mod_key] then
      ({ stmt := { enz := rt.stmt.subj, sub := rt.stmt.obj },
         ev := rt.ev, cur := rt.cur, comment := {} } :: ms,
       { rt with comment.mechanism := [] } :: rs)
    else
      (ms, rt :: rs)

/-- Lines 92-160 of `curations_to_rows`: classify the group's tuples by
statement class and run the missing-statement resolution.  Returns the final
modification tuples and the final regulation tuples in the order
`Activation ++ Inhibition ++ IncreaseAmount ++ DecreaseAmount` used by the
`itertools.product` loop. -/
def resolveGroup (mod_key : PyStr) (curations : List StmtTuple) :
    Except PyErr (List ModTuple × List RegTuple) := do
  let mods0 := modsOf curations
  let acts0 := regsOfTy .Activation curations
  let inhs0 := regsOfTy .Inhibition curations
  let incs0 := regsOfTy .IncreaseAmount curations
  let decs0 := regsOfTy .DecreaseAmount curations
  let has_pos_reg := acts0 ≠ [] ∨ incs0 ≠ []
  let has_neg_reg := inhs0 ≠ [] ∨ decs0 ≠ []
  let has_mod := mods0 ≠ []
  if ¬(has_pos_reg ∨ has_neg_reg) then
    if has_mod then do
      let (mods1, acts1, inhs1, incs1, decs1) ← resolveRegsFromMods mods0
      Except.ok (mods1, (acts0 ++ acts1) ++ (inhs0 ++ inhs1) ++ (incs0 ++ incs1) ++ (decs0 ++ decs1))
    else
      Except.ok (mods0, acts0 ++ inhs0 ++ incs0 ++ decs0)
  else if ¬has_mod then
    let (newMods, actsInhs1) := resolveModsFromRegs mod_key (acts0 ++ inhs0)
    Except.ok (mods0 ++ newMods, actsInhs1 ++ incs0 ++ decs0)
  else
    Except.ok (mods0, acts0 ++ inhs0 ++ incs0 ++ decs0)

/-- `curations_to_rows` of `export_curations.py`: resolve the group, return
no rows when a side is still missing, otherwise emit one candidate row per
(modification, regulation) pair in `itertools.product` order.  An uncaught
Python exception anywhere in the generator is modelled as `Except.error`. -/
def curations_to_rows (mod_key : PyStr) (curations : List StmtTuple) :
    Except PyErr (List Row) := do
  let (mods, regs) ← resolveGroup mod_key curations
  if mods = [] ∨ regs = [] then
    Except.ok []
  else do
    let rowss ← mods.mapM fun mt => regs.mapM fun rt => synthRow mod_key mt rt
    Except.ok rowss.flatten

/-- The `(EFFECT, MECHANISM, RESIDUE)` grouping key of `merge_curation_rows`. -/
def rowKey (row : Row) : PyStr × PyStr × PyStr := (row.effect, row.mechanism, row.residue)

/-- The merged row built in the site-folding loop: a copy of the
site-bearing row whose SENTENCE is the `'|'`-joined union of both rows'
`'|'`-split sentence sets. -/
def foldMerge (row row_with_site : Row) : Row :=
  { row_with_site with
    sentence := pyJoin '|'
      (orderedNub (pySplit '|' row.sentence ++ pySplit '|' row_with_site.sentence)) }

/-- Lines 257-275 of `merge_curation_rows` (phase 1, site-folding). -/
def foldSites (row_dicts : List Row) : List Row :=
  let rows_no_site := row_dicts.filter fun row => row.residue = []
  let rows_with_site := row_dicts.filter fun row => row.residue ≠ []
  if rows_with_site ≠ [] ∧ rows_no_site ≠ [] then
    rows_no_site.flatMap fun row =>
      rows_with_site.filterMap fun row_with_site =>
        if row.effect = row_with_site.effect then some (foldMerge row row_with_site)
        else none
  else
    row_dicts

/-- The rows of `rows_by_key[k]`: the rows with grouping key `k`, in input
order (Python dict-of-lists grouping). -/
def groupRows (new_rows : List Row) (k : PyStr × PyStr × PyStr) : List Row :=
  new_rows.filter fun row => rowKey row = k

/-- Append a key to the key list unless already present: the insertion-order
key set of a Python dict. -/
def insertKey (ks : List (PyStr × PyStr × PyStr)) (k : PyStr × PyStr × PyStr) :
    List (PyStr × PyStr × PyStr) :=
  if k ∈ ks then ks else ks ++ [k]

/-- The keys of `rows_by_key` in first-occurrence order. -/
def dictKeys (new_rows : List Row) : List (PyStr × PyStr × PyStr) :=
  new_rows.foldl (fun ks row => insertKey ks (rowKey row)) []

/-- Lines 284-293: the output for one key group: a singleton group passes
through, a larger group collapses to its first row with the union of all
members' sentence sets. -/
def emitGroup (new_rows : List Row) (k : PyStr × PyStr × PyStr) : List Row :=
  match groupRows new_rows k with
  | [] => []
  | [row] => [row]
  | row0 :: rest =>
    [{ row0 with
       sentence := pyJoin '|'
         (orderedNub (((row0 :: rest).map fun row => pySplit '|' row.sentence).flatten)) }]

/-- Lines 279-294 of `merge_curation_rows` (phase 2, identity-merging). -/
def mergeIdentical (new_rows : List Row) : List Row :=
  (dictKeys new_rows).flatMap (emitGroup new_rows)

/-- `merge_curation_rows` of `export_curations.py`: site-folding then
identity-merging. -/
def merge_curation_rows (curation_rows : List Row) : List Row :=
  mergeIdentical (foldSites curation_rows)

/-- `load_statement_json` of `generate_ptm_curation.py` and
`generate_dephosphorylations.py`, with `json.loads` and the
`codecs.escape_decode` repair abstracted as parameters (`decode` returns
`none` on a `JSONDecodeError`); the trailing `raise ValueError` is the
`Except.error`. -/
def load_statement_json {α β : Type} (decode : α → Option β) (repair : α → α)
    (json_str : α) (attempt : Nat) (max_attempts : Nat) : Except Unit β :=
  match decode json_str with
  | some v => Except.ok v
  | none =>
    if h : attempt < max_attempts then
      load_statement_json decode repair (repair json_str) (attempt + 1) max_attempts
    else
      Except.error ()
termination_by max_attempts - attempt
decreasing_by omega

/-- A comment segment that `process_comment`'s loop accepts: it splits on a
first `:` and its key is in `allowed_keys` (the claim's stop condition,
negated). -/
def validPart (p : PyStr) : Bool :=
  match splitFirstColon (pyStripWs p) with
  | none => false
  | some (key, _) => decide (key ∈ allowed_keys)

/-- The effect of one accepted comment segment on the accumulator. -/
def stepPart (d : ParsedComment) (p : PyStr) : ParsedComment :=
  match splitFirstColon (pyStripWs p) with
  | none => d
  | some (key, value) => if key ∈ allowed_keys then addComment d key value else d

/-- A well-formed `RESIDUE` segment: it splits on a first `:` with key
exactly `RESIDUE`. -/
def isResiduePart (p : PyStr) : Bool :=
  match splitFirstColon (pyStripWs p) with
  | none => false
  | some (key, _) => decide (key = pstr "RESIDUE")

/-- A row whose fields are all empty (used only as a `headD` default on
provably non-empty groups). -/
def emptyRow : Row :=
  { entitya := [], typea := [], ida := none, databasea := [],
    entityb := [], typeb := [], idb := none, databaseb := [],
    effect := [], mechanism := [], residue := [], sequence := [],
    tax_id := [], cell_data := [], tissue_data := [],
    modulator_complex := [], target_complex := [],
    modificationa := [], modaseq := [], modificationb := [], modbseq := [],
    pmid := none, direct := [], notes := [], annotator := [], sentence := [] }

/-- Concrete mechanism name used by the witnesses. -/
def wMk : PyStr := pstr "ubiquitination"

/-- Concrete evidence used by the witnesses. -/
def wEv : Evidence := { text := some (pstr "T"), pmid := some (pstr "99") }

/-- A plain modification tuple (no residue, no comment). -/
def wModPlain : ModTuple :=
  { stmt := { enz := { name := pstr "A" }, sub := { name := pstr "B" } },
    ev := some {}, cur := some (pstr "j.smith@x.org"), comment := {} }

/-- A regulation tuple whose comment carries an `effect` override. -/
def wRegEffect : RegTuple :=
  { stmt := { ty := .Activation, subj := { name := pstr "A" }, obj := { name := pstr "B" } },
    ev := none, cur := none, comment := { effect := [pstr "  down-regulates activity "] } }

/-- The row `synthRow wMk wModPlain wRegEffect` emits. -/
def wRowEffect : Row :=
  { entitya := pstr "A", typea := pstr "protein", ida := none, databasea := pstr "UNIPROT",
    entityb := pstr "B", typeb := pstr "protein", idb := none, databaseb := pstr "UNIPROT",
    effect := pstr "down-regulates activity", mechanism := wMk, residue := [], sequence := [],
    tax_id := pstr "9606", cell_data := [], tissue_data := [],
    modulator_complex := [], target_complex := [],
    modificationa := [], modaseq := [], modificationb := [], modbseq := [],
    pmid := none, direct := pstr "YES", notes := [], annotator := pstr "jsmith",
    sentence := [] }

/-- A modification tuple carrying residue `S` and position `15`. -/
def wModSer : ModTuple :=
  { stmt := { enz := { name := pstr "A" }, sub := { name := pstr "B" },
              residue := some (pstr "S"), position := some (pstr "15") },
    ev := some {}, cur := some (pstr "j.smith@x.org"), comment := {} }

/-- A regulation tuple with an empty comment. -/
def wRegPlain : RegTuple :=
  { stmt := { ty := .Activation, subj := { name := pstr "A" }, obj := { name := pstr "B" } },
    ev := none, cur := none, comment := {} }

/-- The row `synthRow wMk wModSer wRegPlain` emits. -/
def wRowSer : Row :=
  { entitya := pstr "A", typea := pstr "protein", ida := none, databasea := pstr "UNIPROT",
    entityb := pstr "B", typeb := pstr "protein", idb := none, databaseb := pstr "UNIPROT",
    effect := pstr "up-regulates", mechanism := wMk, residue := pstr "Ser15", sequence := [],
    tax_id := pstr "9606", cell_data := [], tissue_data := [],
    modulator_complex := [], target_complex := [],
    modificationa := [], modaseq := [], modificationb := [], modbseq := [],
    pmid := none, direct := pstr "YES", notes := [], annotator := pstr "jsmith",
    sentence := [] }

/-- An `IncreaseAmount` tuple whose comment names the run's mechanism. -/
def wRegInc : RegTuple :=
  { stmt := { ty := .IncreaseAmount, subj := { name := pstr "X1" }, obj := { name := pstr "Y1" } },
    ev := some wEv, cur := some (pstr "c.d@e"), comment := { mechanism := [wMk] } }

/-- An `Activation` tuple whose comment names the run's mechanism. -/
def wRegAct : RegTuple :=
  { stmt := { ty := .Activation, subj := { name := pstr "X1" }, obj := { name := pstr "Y1" } },
    ev := some wEv, cur := some (pstr "c.d@e"), comment := { mechanism := [wMk] } }

/-- A modification tuple whose comment declares two `effect` entries. -/
def wModBad : ModTuple :=
  { stmt := { enz := { name := pstr "A" }, sub := { name := pstr "B" } },
    ev := some {}, cur := some (pstr "j.smith@x.org"),
    comment := { effect := [pstr "up-regulates", pstr "down-regulates"] } }

/-- A regulation tuple whose comment declares two `effect` entries. -/
def wRegBad : RegTuple :=
  { stmt := { ty := .Activation, subj := { name := pstr "A" }, obj := { name := pstr "B" } },
    ev := none, cur := none,
    comment := { effect := [pstr "up-regulates", pstr "down-regulates"] } }

/-- A modification tuple whose comment carries one empty-string `effect`
entry, as produced by the curator comment `"EFFECT:"`. -/
def wModEmptyEffect : ModTuple :=
  { stmt := { enz := { name := pstr "A" }, sub := { name := pstr "B" } },
    ev := some {}, cur := some (pstr "j.smith@x.org"), comment := { effect := [[]] } }

/-- Build a test row differing only in the merge-relevant fields. -/
def mkTestRow (effect residue sentence : PyStr) : Row :=
  { entitya := pstr "A", typea := pstr "protein", ida := none, databasea := pstr "UNIPROT",
    entityb := pstr "B", typeb := pstr "protein", idb := none, databaseb := pstr "UNIPROT",
    effect := effect, mechanism := wMk, residue := residue, sequence := [],
    tax_id := pstr "9606", cell_data := [], tissue_data := [],
    modulator_complex := [], target_complex := [],
    modificationa := [], modaseq := [], modificationb := [], modbseq := [],
    pmid := none, direct := pstr "YES", notes := [], annotator := pstr "jsmith",
    sentence := sentence }

/-- Site-less test row. -/
def wRowNoSite : Row := mkTestRow (pstr "up-regulates") [] (pstr "s1")

/-- Site-bearing test row with the same effect. -/
def wRowSite : Row := mkTestRow (pstr "up-regulates") (pstr "Y705") (pstr "s2")

/-- Site-bearing test row with a different effect. -/
def wRowSiteOther : Row := mkTestRow (pstr "down-regulates") (pstr "Y705") (pstr "s3")

/-- Identity-merge test rows on one key. -/
def wRowAB : Row := mkTestRow (pstr "e") (pstr "R") (pstr "a|b")

/-- Identity-merge partner row. -/
def wRowBC : Row := mkTestRow (pstr "e") (pstr "R") (pstr "b|c")

/-- Test decoder for the retry loop: decodes exactly the value `0`. -/
def wDecode (n : Nat) : Option Nat := if n = 0 then some 7 else none

/-- Test repair step for the retry loop. -/
def wRepair (n : Nat) : Nat := n - 1

theorem mem_orderedNubAux {α : Type} [DecidableEq α] (l : List α) :
    ∀ (seen : List α) (x : α), x ∈ orderedNubAux l seen ↔ x ∈ l ∧ x ∉ seen := by
  induction l with
  | nil => intro seen x; simp [orderedNubAux]
  | cons y ys ih =>
    intro seen x
    by_cases hy : y ∈ seen
    · rw [orderedNubAux, if_pos hy, ih]
      constructor
      · rintro ⟨hxs, hns⟩
        exact ⟨List.mem_cons_of_mem _ hxs, hns⟩
      · rintro ⟨hx, hns⟩
        rcases List.mem_cons.mp hx with rfl | hxs
        · exact absurd hy hns
        · exact ⟨hxs, hns⟩
    · rw [orderedNubAux, if_neg hy]
      constructor
      · intro hx
        rcases List.mem_cons.mp hx with rfl | hxs
        · exact ⟨List.mem_cons_self _ _, hy⟩
        · rcases (ih _ _).mp hxs with ⟨hxy, hns⟩
          refine ⟨List.mem_cons_of_mem _ hxy, fun hc => hns (List.mem_cons_of_mem _ hc)⟩
      · rintro ⟨hx, hns⟩
        rcases List.mem_cons.mp hx with rfl | hxs
        · exact List.mem_cons_self _ _
        · by_cases hxy : x = y
          · subst hxy; exact List.mem_cons_self _ _
          · refine List.mem_cons_of_mem _ ((ih _ _).mpr ⟨hxs, ?_⟩)
            intro hc
            rcases List.mem_cons.mp hc with h1 | h2
            · exact hxy h1
            · exact hns h2

theorem mem_orderedNub {α : Type} [DecidableEq α] (l : List α) (x : α) :
    x ∈ orderedNub l ↔ x ∈ l := by
  rw [orderedNub, mem_orderedNubAux]
  simp

theorem orderedNub_ne_nil {α : Type} [DecidableEq α] (l : List α) (h : l ≠ []) :
    orderedNub l ≠ [] := by
  cases l with
  | nil => exact absurd rfl h
  | cons a l =>
    intro hc
    have : a ∈ orderedNub (a :: l) := (mem_orderedNub _ _).mpr (List.mem_cons_self _ _)
    rw [hc] at this
    exact List.not_mem_nil _ this

theorem pySplit_ne_nil (sep : Char) (s : PyStr) : pySplit sep s ≠ [] := by
  cases s with
  | nil => simp [pySplit]
  | cons c rest =>
    rw [pySplit]
    by_cases hc : c = sep
    · simp [hc]
    · rw [if_neg hc]
      cases h : pySplit sep rest with
      | nil => simp
      | cons p ps => simp

theorem not_mem_of_mem_pySplit (sep : Char) (s : PyStr) :
    ∀ p, p ∈ pySplit sep s → sep ∉ p := by
  induction s with
  | nil =>
    intro p hp
    simp [pySplit] at hp
    simp [hp]
  | cons c rest ih =>
    intro p hp
    rw [pySplit] at hp
    by_cases hc : c = sep
    · rw [if_pos hc] at hp
      rcases List.mem_cons.mp hp with rfl | hps
      · exact List.not_mem_nil _
      · exact ih _ hps
    · rw [if_neg hc] at hp
      cases h : pySplit sep rest with
      | nil => exact absurd h (pySplit_ne_nil sep rest)
      | cons p0 ps =>
        rw [h] at hp
        rcases List.mem_cons.mp hp with rfl | hps
        · intro hmem
          rcases List.mem_cons.mp hmem with h1 | h2
          · exact hc h1.symm
          · exact ih p0 (h ▸ List.mem_cons_self _ _) h2
        · exact ih _ (h ▸ List.mem_cons_of_mem _ hps)

theorem pySplit_no_sep (sep : Char) (p : PyStr) (h : sep ∉ p) :
    pySplit sep p = [p] := by
  induction p with
  | nil => simp [pySplit]
  | cons c rest ih =>
    have hc : ¬ c = sep := fun hh => h (hh ▸ List.mem_cons_self _ _)
    rw [pySplit, if_neg hc, ih (fun hm => h (List.mem_cons_of_mem _ hm))]

theorem pySplit_append_sep (sep : Char) (p t : PyStr) (h : sep ∉ p) :
    pySplit sep (p ++ sep :: t) = p :: pySplit sep t := by
  induction p with
  | nil => simp [pySplit]
  | cons c rest ih =>
    have hc : ¬ c = sep := fun hh => h (hh ▸ List.mem_cons_self _ _)
    rw [List.cons_append, pySplit, if_neg hc, ih (fun hm => h (List.mem_cons_of_mem _ hm))]

theorem pySplit_pyJoin (sep : Char) (parts : List PyStr) (hne : parts ≠ [])
    (hsep : ∀ p ∈ parts, sep ∉ p) :
    pySplit sep (pyJoin sep parts) = parts := by
  induction parts with
  | nil => exact absurd rfl hne
  | cons p ps ih =>
    cases ps with
    | nil => exact pySplit_no_sep sep p (hsep p (List.mem_cons_self _ _))
    | cons q qs =>
      have hne2 : (q :: qs : List PyStr) ≠ [] := by simp
      have hsep2 : ∀ r ∈ q :: qs, sep ∉ r := fun r hr => hsep r (List.mem_cons_of_mem _ hr)
      show pySplit sep (p ++ sep :: pyJoin sep (q :: qs)) = p :: q :: qs
      rw [pySplit_append_sep sep p _ (hsep p (List.mem_cons_self _ _)), ih hne2 hsep2]

theorem mem_pySplit_pyJoin_orderedNub (sep : Char) (l : List PyStr)
    (hne : l ≠ []) (hsep : ∀ p ∈ l, sep ∉ p) (x : PyStr) :
    x ∈ pySplit sep (pyJoin sep (orderedNub l)) ↔ x ∈ l := by
  rw [pySplit_pyJoin sep _ (orderedNub_ne_nil l hne)
    (fun p hp => hsep p ((mem_orderedNub _ _).mp hp))]
  exact mem_orderedNub _ _


set_option maxRecDepth 100000

theorem processParts_eq_foldl (parts : List PyStr) :
    ∀ d : ParsedComment, processParts parts d = (parts.takeWhile validPart).foldl stepPart d := by
  induction parts with
  | nil => intro d; rfl
  | cons p rest ih =>
    intro d
    cases hsp : splitFirstColon (pyStripWs p) with
    | none =>
      have hv : validPart p = false := by rw [validPart, hsp]
      simp [processParts, hsp, List.takeWhile_cons, hv]
    | some kv =>
      obtain ⟨key, value⟩ := kv
      by_cases hk : key ∈ allowed_keys
      · have hv : validPart p = true := by
          rw [validPart, hsp]
          exact decide_eq_true hk
        have hstep : stepPart d p = addComment d key value := by
          rw [stepPart, hsp]
          simp [hk]
        simp [processParts, hsp, List.takeWhile_cons, hv, hk, hstep, ih]
      · have hv : validPart p = false := by
          rw [validPart, hsp]
          exact decide_eq_false hk
        simp [processParts, hsp, List.takeWhile_cons, hv, hk]

theorem addComment_residue (d : ParsedComment) (value : PyStr) :
    addComment d (pstr "RESIDUE") value = d := by
  rw [addComment, if_neg (by decide), if_neg (by decide), if_neg (by decide),
    if_neg (by decide), if_neg (by decide), if_neg (by decide)]

theorem processParts_residue_cons (p : PyStr) (rest : List PyStr) (d : ParsedComment)
    (h : isResiduePart p) : processParts (p :: rest) d = processParts rest d := by
  rw [isResiduePart] at h
  cases hsp : splitFirstColon (pyStripWs p) with
  | none =>
    rw [hsp] at h
    exact absurd h (by simp)
  | some kv =>
    obtain ⟨key, value⟩ := kv
    rw [hsp] at h
    simp only [decide_eq_true_eq] at h
    subst h
    have hmem : (pstr "RESIDUE") ∈ allowed_keys := by decide
    rw [processParts, hsp]
    simp [hmem, addComment_residue]

theorem processParts_residue_all (parts : List PyStr) :
    ∀ d : ParsedComment, (∀ p ∈ parts, isResiduePart p) → processParts parts d = d := by
  induction parts with
  | nil => intro d _; rfl
  | cons p rest ih =>
    intro d hall
    rw [processParts_residue_cons p rest d (hall p (List.mem_cons_self _ _))]
    exact ih d (fun q hq => hall q (List.mem_cons_of_mem _ hq))

theorem mapLookup_none_of (m : List (PyStr × PyStr)) (P : PyStr → Prop)
    (hm : ∀ p ∈ m, ¬ P p.1) (c : PyStr) (hc : P c) : mapLookup m c = none := by
  induction m with
  | nil => rfl
  | cons kv rest ih =>
    obtain ⟨k, v⟩ := kv
    rw [mapLookup]
    by_cases hck : c = k
    · subst hck
      exact absurd hc (hm (c, v) (List.mem_cons_self _ _))
    · rw [if_neg hck]
      exact ih (fun p hp => hm p (List.mem_cons_of_mem _ hp))

/-- C2: for every non-empty comment, the parser walks the semicolon segments
of the (correction-table substituted, `;`-stripped) comment left to right
and, at the first segment with no `:` or with a key outside the allowed set,
stops and returns exactly the mapping accumulated from the segments before
it (the parser is a total function, so no exception escapes); in particular
`"EFFECT:up-regulates;BOGUS:x"` parses to the mapping holding only
`effect = ["up-regulates"]`. -/
theorem comment_failsoft_parse :
    (∀ c : PyStr, c ≠ [] →
      process_comment c =
        ((pySplit ';' (pyStripChar ';' ((mapLookup comment_mapping c).getD c))).takeWhile
          validPart).foldl stepPart {}) ∧
    process_comment (pstr "EFFECT:up-regulates;BOGUS:x") = { effect := [pstr "up-regulates"] } := by
  constructor
  · intro c hc
    rw [process_comment, if_neg hc, processParts_eq_foldl]
  · decide

/-- Witness for C2 at the comment `"EFFECT:a;TAXID:9606"`. -/
theorem comment_failsoft_parse_witness :
    process_comment (pstr "EFFECT:a;TAXID:9606") =
      ((pySplit ';' (pyStripChar ';'
          ((mapLookup comment_mapping (pstr "EFFECT:a;TAXID:9606")).getD
            (pstr "EFFECT:a;TAXID:9606")))).takeWhile validPart).foldl stepPart {} :=
  comment_failsoft_parse.1 (pstr "EFFECT:a;TAXID:9606") (by decide)

/-- C8: a well-formed `RESIDUE` segment is accepted (the segment loop
continues past it) but contributes to no bucket of the result, and a
non-empty comment made only of such segments parses to the empty mapping. -/
theorem residue_key_ignored :
    (∀ (p : PyStr) (rest : List PyStr) (d : ParsedComment), isResiduePart p →
      processParts (p :: rest) d = processParts rest d) ∧
    (∀ c : PyStr, c ≠ [] →
      (∀ p ∈ pySplit ';' (pyStripChar ';' c), isResiduePart p) →
      process_comment c = {}) := by
  constructor
  · exact processParts_residue_cons
  · intro c hc hall
    have hnone : mapLookup comment_mapping c = none := by
      refine mapLookup_none_of comment_mapping
        (fun s => ∀ p ∈ pySplit ';' (pyStripChar ';' s), isResiduePart p) ?_ c hall
      decide
    rw [process_comment, if_neg hc]
    simp only [hnone, Option.getD_none]
    exact processParts_residue_all _ _ hall

/-- Witness for C8 at the comment `"RESIDUE:S15;RESIDUE:Y705"`. -/
theorem residue_key_ignored_witness :
    process_comment (pstr "RESIDUE:S15;RESIDUE:Y705") = {} :=
  residue_key_ignored.2 (pstr "RESIDUE:S15;RESIDUE:Y705") (by decide) (by decide)

theorem truthyC_of_effect (c : ParsedComment) (h : c.effect ≠ []) : truthyC c = true := by
  simp [truthyC, h]

theorem computeEffect_ok_reg (mc rc : ParsedComment) (ty : RegType) (e : PyStr)
    (hne : rc.effect ≠ []) (h : computeEffect mc rc ty = Except.ok e) :
    e = pyStripWs (rc.effect.headD []) := by
  simp only [computeEffect] at h
  rw [if_pos ⟨truthyC_of_effect rc hne, hne⟩] at h
  by_cases hl : rc.effect.length = 1
  · rw [if_pos hl] at h
    exact (Except.ok.inj h).symm
  · rw [if_neg hl] at h
    exact absurd h (by simp)

theorem computeEffect_ok_mod (mc rc : ParsedComment) (ty : RegType) (e : PyStr)
    (hreg : rc.effect = []) (hmod : mc.effect.headD [] ≠ [])
    (h : computeEffect mc rc ty = Except.ok e) :
    e = pyStripWs (mc.effect.headD []) := by
  have hne : mc.effect ≠ [] := by
    intro hc
    rw [hc] at hmod
    exact hmod rfl
  have hM : (if truthyC mc ∧ mc.effect ≠ [] then some (mc.effect.headD []) else none) =
      some (mc.effect.headD []) := if_pos ⟨truthyC_of_effect mc hne, hne⟩
  simp only [computeEffect] at h
  rw [if_neg (by simp [hreg]), hM] at h
  rw [if_pos (show truthyOpt (some (mc.effect.headD [])) = true by
    simp only [truthyOpt]
    simpa using hmod)] at h
  exact (Except.ok.inj h).symm

theorem computeEffect_ok_default (mc rc : ParsedComment) (ty : RegType) (e : PyStr)
    (hreg : rc.effect = []) (hmod : mc.effect.headD [] = [])
    (h : computeEffect mc rc ty = Except.ok e) :
    e = defaultEffect ty := by
  simp only [computeEffect] at h
  rw [if_neg (by simp [hreg])] at h
  by_cases hne : mc.effect = []
  · have hM : (if truthyC mc ∧ mc.effect ≠ [] then some (mc.effect.headD []) else none) =
        none := if_neg (by simp [hne])
    rw [hM, if_neg (show ¬ truthyOpt none = true by simp [truthyOpt])] at h
    exact (Except.ok.inj h).symm
  · have hM : (if truthyC mc ∧ mc.effect ≠ [] then some (mc.effect.headD []) else none) =
        some (mc.effect.headD []) := if_pos ⟨truthyC_of_effect mc hne, hne⟩
    rw [hM, if_neg (show ¬ truthyOpt (some (mc.effect.headD [])) = true by
      simp only [truthyOpt]
      simpa using hmod)] at h
    exact (Except.ok.inj h).symm

theorem computeEffect_assert (mc rc : ParsedComment) (ty : RegType)
    (h2 : 2 ≤ rc.effect.length) : computeEffect mc rc ty = Except.error PyErr.assertionError := by
  have hne : rc.effect ≠ [] := by
    intro hc
    rw [hc] at h2
    simp at h2
  simp only [computeEffect]
  rw [if_pos ⟨truthyC_of_effect rc hne, hne⟩, if_neg (by omega)]

theorem computeResidue_ok_some (stmt : ModStmt) (sn : PyStr)
    (hr : truthyOpt stmt.residue) (hp : truthyOpt stmt.position)
    (hsn : mapLookup amino_acids (stmt.residue.getD []) = some sn) :
    computeResidue stmt = Except.ok (pyCapitalize sn ++ stmt.position.getD []) := by
  rw [computeResidue, if_pos ⟨hr, hp⟩, hsn]

theorem computeResidue_ok_empty (stmt : ModStmt)
    (h : ¬(truthyOpt stmt.residue ∧ truthyOpt stmt.position)) :
    computeResidue stmt = Except.ok [] := by
  rw [computeResidue, if_neg h]

theorem synthRow_ok_fields (mod_key : PyStr) (mt : ModTuple) (rt : RegTuple) (row : Row)
    (h : synthRow mod_key mt rt = Except.ok row) :
    computeEffect mt.comment rt.comment rt.stmt.ty = Except.ok row.effect ∧
    computeResidue mt.stmt = Except.ok row.residue := by
  rw [synthRow] at h
  cases he : computeEffect mt.comment rt.comment rt.stmt.ty with
  | error e =>
    rw [he] at h
    exact Except.noConfusion h
  | ok eff =>
    rw [he] at h
    cases hr : computeResidue mt.stmt with
    | error e =>
      rw [hr] at h
      exact Except.noConfusion h
    | ok res =>
      rw [hr] at h
      cases hev : mt.ev with
      | none =>
        rw [hev] at h
        exact Except.noConfusion h
      | some me =>
        rw [hev] at h
        cases hc : computeCurator mt.cur rt.cur with
        | error e =>
          rw [hc] at h
          exact Except.noConfusion h
        | ok cur =>
          rw [hc] at h
          have h2 := Except.ok.inj h
          subst h2
          exact ⟨rfl, rfl⟩

/-- C1 counterexample: the comment `"EFFECT:"` parses to a single
empty-string `effect` entry; on a modification tuple carrying that comment
and an Activation with no comment effect, the emitted EFFECT is the
type-derived default `"up-regulates"` (line 181's `elif mod_comment_effect:`
is false for the empty string), not the stripped entry as the claim
states. -/
theorem effect_precedence_cx :
    process_comment (pstr "EFFECT:") = { effect := [[]] } ∧
    (synthRow wMk wModEmptyEffect wRegPlain).map Row.effect = Except.ok (pstr "up-regulates") ∧
    pstr "up-regulates" ≠ pyStripWs (wModEmptyEffect.comment.effect.headD []) := by
  decide

/-- C1 (amended): for every emitted row, the EFFECT field follows the
three-step precedence: the regulation comment's (stripped) `effect` entry
when present; else the modification comment's (stripped) `effect` entry when
present and a non-empty (truthy) string; else - including when the
modification comment's entry is the empty string - the default derived from
the regulation statement's concrete class (Activation: up-regulates,
IncreaseAmount: up-regulates quantity, Inhibition: down-regulates,
DecreaseAmount: down-regulates quantity). -/
theorem effect_precedence (mod_key : PyStr) (mt : ModTuple) (rt : RegTuple) (row : Row)
    (h : synthRow mod_key mt rt = Except.ok row) :
    (rt.comment.effect ≠ [] → row.effect = pyStripWs (rt.comment.effect.headD [])) ∧
    (rt.comment.effect = [] → mt.comment.effect.headD [] ≠ [] →
      row.effect = pyStripWs (mt.comment.effect.headD [])) ∧
    (rt.comment.effect = [] → mt.comment.effect.headD [] = [] →
      row.effect = defaultEffect rt.stmt.ty) := by
  obtain ⟨he, -⟩ := synthRow_ok_fields mod_key mt rt row h
  exact ⟨fun h1 => computeEffect_ok_reg _ _ _ _ h1 he,
    fun h1 h2 => computeEffect_ok_mod _ _ _ _ h1 h2 he,
    fun h1 h2 => computeEffect_ok_default _ _ _ _ h1 h2 he⟩

/-- Witness for C1: a regulation-comment effect overriding the Activation
default. -/
theorem effect_precedence_witness :
    synthRow wMk wModPlain wRegEffect = Except.ok wRowEffect ∧
    wRowEffect.effect = pyStripWs (wRegEffect.comment.effect.headD []) :=
  ⟨by decide,
   (effect_precedence wMk wModPlain wRegEffect wRowEffect (by decide)).1 (by decide)⟩

/-- C7 counterexample: for a modification with residue code `S` and position
`"15"` the emitted RESIDUE field is `"Ser15"` (capitalized INDRA
`short_name` `"ser"` followed by the position), not `"S15"` as the claim's
example states. -/
theorem residue_rendering_cx :
    (synthRow wMk wModSer wRegPlain).map Row.residue = Except.ok (pstr "Ser15") ∧
    pstr "Ser15" ≠ pstr "S15" := by
  decide

/-- C7 (amended): for every emitted row, when the modification statement has
a truthy residue code and position, RESIDUE is the capitalized amino-acid
`short_name` of the residue code (a lower-case three-letter name in the
INDRA table, so code `S` with position `"15"` renders `"Ser15"`)
concatenated with the position; when either is absent, RESIDUE is empty. -/
theorem residue_rendering (mod_key : PyStr) (mt : ModTuple) (rt : RegTuple) (row : Row)
    (h : synthRow mod_key mt rt = Except.ok row) :
    (∀ sn, truthyOpt mt.stmt.residue → truthyOpt mt.stmt.position →
      mapLookup amino_acids (mt.stmt.residue.getD []) = some sn →
      row.residue = pyCapitalize sn ++ mt.stmt.position.getD []) ∧
    (¬(truthyOpt mt.stmt.residue ∧ truthyOpt mt.stmt.position) → row.residue = []) := by
  obtain ⟨-, hr⟩ := synthRow_ok_fields mod_key mt rt row h
  constructor
  · intro sn h1 h2 hsn
    have := computeResidue_ok_some mt.stmt sn h1 h2 hsn
    rw [this] at hr
    exact (Except.ok.inj hr).symm
  · intro h1
    have := computeResidue_ok_empty mt.stmt h1
    rw [this] at hr
    exact (Except.ok.inj hr).symm

/-- Witness for C7 at residue `S`, position `15`. -/
theorem residue_rendering_witness :
    synthRow wMk wModSer wRegPlain = Except.ok wRowSer ∧
    wRowSer.residue = pyCapitalize (pstr "ser") ++ wModSer.stmt.position.getD [] :=
  ⟨by decide,
   (residue_rendering wMk wModSer wRegPlain wRowSer (by decide)).1 (pstr "ser")
     (by decide) (by decide) (by decide)⟩

theorem resolveModEffect_error (mt : ModTuple) (e : PyErr)
    (h : resolveModEffect mt = Except.error e) : e = PyErr.assertionError := by
  rw [resolveModEffect] at h
  by_cases h1 : truthyC mt.comment ∧ mt.comment.effect ≠ []
  · rw [if_pos h1] at h
    by_cases h2 : mt.comment.effect.length = 1
    · rw [if_pos h2] at h
      by_cases h3 : pyContains (pyLower (mt.comment.effect.headD [])) (pstr "down-regulates") = true
      · simp only [h3, if_true] at h
        exact Except.noConfusion h
      · simp only [h3, Bool.false_eq_true, if_false] at h
        by_cases h4 : pyContains (pyLower (mt.comment.effect.headD [])) (pstr "up-regulates") = true
        · simp only [h4, if_true] at h
          exact Except.noConfusion h
        · simp only [h4, Bool.false_eq_true, if_false] at h
          exact Except.noConfusion h
    · rw [if_neg h2] at h
      exact (Except.error.inj h).symm
  · rw [if_neg h1] at h
    exact Except.noConfusion h

theorem resolveModEffect_assert (mt : ModTuple) (h2 : 2 ≤ mt.comment.effect.length) :
    resolveModEffect mt = Except.error PyErr.assertionError := by
  have hne : mt.comment.effect ≠ [] := by
    intro hc
    rw [hc] at h2
    simp at h2
  rw [resolveModEffect, if_pos ⟨truthyC_of_effect _ hne, hne⟩, if_neg (by omega)]

theorem resolveRegsFromMods_error (mods : List ModTuple) (mt : ModTuple)
    (hmem : mt ∈ mods) (h2 : 2 ≤ mt.comment.effect.length) :
    resolveRegsFromMods mods = Except.error PyErr.assertionError := by
  induction mods with
  | nil => cases hmem
  | cons m rest ih =>
    rcases List.mem_cons.mp hmem with rfl | hmem2
    · rw [resolveRegsFromMods, resolveModEffect_assert mt h2]
      rfl
    · rw [resolveRegsFromMods]
      cases hstep : resolveModEffect m with
      | error e =>
        have he := resolveModEffect_error m e hstep
        subst he
        rfl
      | ok pr =>
        rw [ih hmem2]
        cases pr with
        | mk mt2 newReg => rfl

theorem resolveGroup_assert (mod_key : PyStr) (input : List StmtTuple) (mt : ModTuple)
    (ha : regsOfTy .Activation input = []) (hi : regsOfTy .Inhibition input = [])
    (hn : regsOfTy .IncreaseAmount input = []) (hd : regsOfTy .DecreaseAmount input = [])
    (hmem : mt ∈ modsOf input) (h2 : 2 ≤ mt.comment.effect.length) :
    resolveGroup mod_key input = Except.error PyErr.assertionError := by
  have hm : modsOf input ≠ [] := List.ne_nil_of_mem hmem
  rw [resolveGroup]
  rw [if_pos (by simp [ha, hi, hn, hd])]
  rw [if_pos hm]
  rw [resolveRegsFromMods_error (modsOf input) mt hmem h2]
  rfl

/-- C5: a comment with more than one `effect` entry where exactly one is
expected aborts the run with the `assert len(...) == 1` assertion error:
first conjunct, a modification comment consulted to synthesize a missing
regulation statement (a group with no regulation tuple); second conjunct, a
regulation comment consulted for effect precedence during row synthesis. -/
theorem multiple_effect_fatal :
    (∀ (mod_key : PyStr) (input : List StmtTuple) (mt : ModTuple),
      regsOfTy .Activation input = [] → regsOfTy .Inhibition input = [] →
      regsOfTy .IncreaseAmount input = [] → regsOfTy .DecreaseAmount input = [] →
      mt ∈ modsOf input → 2 ≤ mt.comment.effect.length →
      curations_to_rows mod_key input = Except.error PyErr.assertionError) ∧
    (∀ (mod_key : PyStr) (mt : ModTuple) (rt : RegTuple),
      2 ≤ rt.comment.effect.length →
      synthRow mod_key mt rt = Except.error PyErr.assertionError) := by
  constructor
  · intro mod_key input mt ha hi hn hd hmem h2
    rw [curations_to_rows, resolveGroup_assert mod_key input mt ha hi hn hd hmem h2]
    rfl
  · intro mod_key mt rt h2
    rw [synthRow, computeEffect_assert mt.comment rt.comment rt.stmt.ty h2]
    rfl

/-- Witness for C5: a group whose only tuple is a modification with a
two-entry effect comment, and a synthesis pair whose regulation comment has
a two-entry effect. -/
theorem multiple_effect_fatal_witness :
    curations_to_rows wMk [StmtTuple.mod wModBad] = Except.error PyErr.assertionError ∧
    synthRow wMk wModPlain wRegBad = Except.error PyErr.assertionError :=
  ⟨multiple_effect_fatal.1 wMk [StmtTuple.mod wModBad] wModBad
      (by decide) (by decide) (by decide) (by decide) (by decide) (by decide),
   multiple_effect_fatal.2 wMk wModPlain wRegBad (by decide)⟩

theorem resolveModsFromRegs_eq (mod_key : PyStr) (rts : List RegTuple) :
    resolveModsFromRegs mod_key rts =
      (rts.filterMap (fun rt =>
        if truthyC rt.comment ∧ rt.comment.mechanism = [mod_key] then
          some { stmt := { enz := rt.stmt.subj, sub := rt.stmt.obj },
                 ev := rt.ev, cur := rt.cur, comment := {} }
        else none),
       rts.map (fun rt =>
        if truthyC rt.comment ∧ rt.comment.mechanism = [mod_key] then
          { rt with comment.mechanism := [] }
        else rt)) := by
  induction rts with
  | nil => rfl
  | cons rt rest ih =>
    rw [resolveModsFromRegs, ih]
    by_cases hc : truthyC rt.comment ∧ rt.comment.mechanism = [mod_key]
    · simp [hc]
    · simp [hc]

theorem mem_regsOfTy_self (r : RegTuple) (input : List StmtTuple)
    (h : StmtTuple.reg r ∈ input) : r ∈ regsOfTy r.stmt.ty input := by
  rw [regsOfTy, List.mem_filterMap]
  exact ⟨StmtTuple.reg r, h, by simp⟩

/-- C6 (amended): in a group with regulation tuples but no modification
tuple, exactly the Activation and Inhibition tuples are scanned; each one
whose truthy comment has `mechanism = [mod_key]` yields a placeholder
modification tuple whose enzyme and substrate are the regulation statement's
`subj` and `obj`, carrying the regulation tuple's evidence and curation and
an empty comment, and `mechanism` is removed from that regulation tuple's
comment; IncreaseAmount and DecreaseAmount tuples are not scanned. -/
theorem reg_only_resolution (mod_key : PyStr) (input : List StmtTuple)
    (hmods : modsOf input = []) (hne : input ≠ []) :
    resolveGroup mod_key input = Except.ok
      ((regsOfTy .Activation input ++ regsOfTy .Inhibition input).filterMap (fun rt =>
        if truthyC rt.comment ∧ rt.comment.mechanism = [mod_key] then
          some { stmt := { enz := rt.stmt.subj, sub := rt.stmt.obj },
                 ev := rt.ev, cur := rt.cur, comment := {} }
        else none),
       ((regsOfTy .Activation input ++ regsOfTy .Inhibition input).map (fun rt =>
        if truthyC rt.comment ∧ rt.comment.mechanism = [mod_key] then
          { rt with comment.mechanism := [] }
        else rt)) ++ regsOfTy .IncreaseAmount input ++ regsOfTy .DecreaseAmount input) := by
  obtain ⟨r, hr⟩ : ∃ r : RegTuple, StmtTuple.reg r ∈ input := by
    cases input with
    | nil => exact absurd rfl hne
    | cons t rest =>
      cases t with
      | mod m =>
        exfalso
        have hm : m ∈ modsOf (StmtTuple.mod m :: rest) := by
          rw [modsOf, List.mem_filterMap]
          exact ⟨StmtTuple.mod m, List.mem_cons_self _ _, rfl⟩
        rw [hmods] at hm
        exact List.not_mem_nil _ hm
      | reg r => exact ⟨r, List.mem_cons_self _ _⟩
  have hpn : (regsOfTy .Activation input ≠ [] ∨ regsOfTy .IncreaseAmount input ≠ []) ∨
      (regsOfTy .Inhibition input ≠ [] ∨ regsOfTy .DecreaseAmount input ≠ []) := by
    have hmem := mem_regsOfTy_self r input hr
    cases hty : r.stmt.ty with
    | Activation => exact Or.inl (Or.inl (List.ne_nil_of_mem (hty ▸ hmem)))
    | IncreaseAmount => exact Or.inl (Or.inr (List.ne_nil_of_mem (hty ▸ hmem)))
    | Inhibition => exact Or.inr (Or.inl (List.ne_nil_of_mem (hty ▸ hmem)))
    | DecreaseAmount => exact Or.inr (Or.inr (List.ne_nil_of_mem (hty ▸ hmem)))
  rw [resolveGroup]
  rw [if_neg (not_not_intro hpn), if_pos (by simp [hmods]), resolveModsFromRegs_eq]
  simp [hmods]

/-- C6 counterexample: (i) an IncreaseAmount-only group whose comment names
the run's mechanism is not scanned: no modification tuple is synthesized and
`mechanism` stays in its comment; (ii) the tuple synthesized from an
Activation tuple carries that tuple's evidence, not empty evidence. -/
theorem reg_only_resolution_cx :
    resolveGroup wMk [StmtTuple.reg wRegInc] = Except.ok ([], [wRegInc]) ∧
    resolveGroup wMk [StmtTuple.reg wRegAct] = Except.ok
      ([{ stmt := { enz := wRegAct.stmt.subj, sub := wRegAct.stmt.obj },
          ev := some wEv, cur := some (pstr "c.d@e"), comment := {} }],
       [{ wRegAct with comment.mechanism := [] }]) ∧
    some wEv ≠ (none : Option Evidence) := by
  decide

/-- Witness for C6 on a single-Activation group. -/
theorem reg_only_resolution_witness :
    resolveGroup wMk [StmtTuple.reg wRegAct] = Except.ok
      ((regsOfTy .Activation [StmtTuple.reg wRegAct] ++
          regsOfTy .Inhibition [StmtTuple.reg wRegAct]).filterMap (fun rt =>
        if truthyC rt.comment ∧ rt.comment.mechanism = [wMk] then
          some { stmt := { enz := rt.stmt.subj, sub := rt.stmt.obj },
                 ev := rt.ev, cur := rt.cur, comment := {} }
        else none),
       ((regsOfTy .Activation [StmtTuple.reg wRegAct] ++
          regsOfTy .Inhibition [StmtTuple.reg wRegAct]).map (fun rt =>
        if truthyC rt.comment ∧ rt.comment.mechanism = [wMk] then
          { rt with comment.mechanism := [] }
        else rt)) ++ regsOfTy .IncreaseAmount [StmtTuple.reg wRegAct] ++
        regsOfTy .DecreaseAmount [StmtTuple.reg wRegAct]) :=
  reg_only_resolution wMk [StmtTuple.reg wRegAct] (by decide) (by decide)

theorem foldSites_both (rows : List Row)
    (h : rows.filter (fun r => r.residue ≠ []) ≠ [] ∧ rows.filter (fun r => r.residue = []) ≠ []) :
    foldSites rows =
      (rows.filter (fun r => r.residue = [])).flatMap (fun row =>
        (rows.filter (fun r => r.residue ≠ [])).filterMap (fun row_with_site =>
          if row.effect = row_with_site.effect then some (foldMerge row row_with_site)
          else none)) := by
  simp only [foldSites]
  rw [if_pos h]

theorem mem_foldMerge_sentence (r w : Row) (x : PyStr) :
    x ∈ pySplit '|' (foldMerge r w).sentence ↔
      x ∈ pySplit '|' r.sentence ∨ x ∈ pySplit '|' w.sentence := by
  have hne : pySplit '|' r.sentence ++ pySplit '|' w.sentence ≠ [] := by
    intro hc
    exact pySplit_ne_nil '|' r.sentence (List.append_eq_nil.mp hc).1
  have hsep : ∀ p ∈ pySplit '|' r.sentence ++ pySplit '|' w.sentence, '|' ∉ p := by
    intro p hp
    rcases List.mem_append.mp hp with h1 | h1
    · exact not_mem_of_mem_pySplit '|' r.sentence p h1
    · exact not_mem_of_mem_pySplit '|' w.sentence p h1
  rw [show (foldMerge r w).sentence =
      pyJoin '|' (orderedNub (pySplit '|' r.sentence ++ pySplit '|' w.sentence)) from rfl]
  rw [mem_pySplit_pyJoin_orderedNub '|' _ hne hsep]
  exact List.mem_append

/-- C3: the site-folding phase passes every row through unchanged when
either partition is empty; when both are non-empty, every
(site-less, site-bearing) pair with equal EFFECT produces a merged row that
is the site-bearing row with SENTENCE replaced by the union of the two
`'|'`-split sentence sets, and a site-less row matching no site-bearing
row's effect contributes nothing to the output. -/
theorem site_folding (rows : List Row) :
    ((rows.filter (fun r => r.residue = []) = [] ∨ rows.filter (fun r => r.residue ≠ []) = []) →
      foldSites rows = rows) ∧
    (∀ r w, r ∈ rows → r.residue = [] → w ∈ rows → w.residue ≠ [] → r.effect = w.effect →
      foldMerge r w ∈ foldSites rows ∧
      foldMerge r w = { w with sentence := (foldMerge r w).sentence } ∧
      (∀ x, x ∈ pySplit '|' (foldMerge r w).sentence ↔
        x ∈ pySplit '|' r.sentence ∨ x ∈ pySplit '|' w.sentence)) ∧
    (∀ r, r ∈ rows → r.residue = [] →
      (∀ w ∈ rows, w.residue ≠ [] → r.effect ≠ w.effect) →
      rows.filter (fun r => r.residue ≠ []) ≠ [] →
      r ∉ foldSites rows) := by
  refine ⟨?_, ?_, ?_⟩
  · intro h
    simp only [foldSites]
    rw [if_neg]
    rcases h with h | h
    · intro hc
      exact hc.2 h
    · intro hc
      exact hc.1 h
  · intro r w hr hres hw hwres heff
    have hrf : r ∈ rows.filter (fun q => q.residue = []) :=
      List.mem_filter.mpr ⟨hr, by simp [hres]⟩
    have hwf : w ∈ rows.filter (fun q => q.residue ≠ []) :=
      List.mem_filter.mpr ⟨hw, by simp [hwres]⟩
    refine ⟨?_, rfl, mem_foldMerge_sentence r w⟩
    rw [foldSites_both rows ⟨List.ne_nil_of_mem hwf, List.ne_nil_of_mem hrf⟩]
    rw [List.mem_flatMap]
    refine ⟨r, hrf, ?_⟩
    rw [List.mem_filterMap]
    exact ⟨w, hwf, by rw [if_pos heff]⟩
  · intro r hr hres hnomatch hwne habs
    have hrf : r ∈ rows.filter (fun q => q.residue = []) :=
      List.mem_filter.mpr ⟨hr, by simp [hres]⟩
    rw [foldSites_both rows ⟨hwne, List.ne_nil_of_mem hrf⟩] at habs
    rw [List.mem_flatMap] at habs
    obtain ⟨r2, -, hmem⟩ := habs
    rw [List.mem_filterMap] at hmem
    obtain ⟨w, hwf, hif⟩ := hmem
    have hwres : w.residue ≠ [] := by
      have := (List.mem_filter.mp hwf).2
      simpa using this
    by_cases heff : r2.effect = w.effect
    · rw [if_pos heff] at hif
      have hres2 : w.residue = r.residue := by
        have := congrArg Row.residue (Option.some.inj hif)
        simpa [foldMerge] using this
      rw [hres] at hres2
      exact hwres hres2
    · rw [if_neg heff] at hif
      exact Option.noConfusion hif

/-- Witness for C3: a single site-less row passes through unchanged. -/
theorem site_folding_witness : foldSites [wRowNoSite] = [wRowNoSite] :=
  (site_folding [wRowNoSite]).1 (by decide)

/-- C10: when both partitions are non-empty, the site-folding output
consists only of merged copies produced from matching-effect pairs; in
particular a site-bearing row whose EFFECT matches no site-less row is also
dropped, not passed through. -/
theorem site_folding_matched_only (rows : List Row)
    (hno : rows.filter (fun r => r.residue = []) ≠ [])
    (hw : rows.filter (fun r => r.residue ≠ []) ≠ []) :
    (∀ m ∈ foldSites rows, ∃ r w, r ∈ rows ∧ r.residue = [] ∧ w ∈ rows ∧ w.residue ≠ [] ∧
      r.effect = w.effect ∧ m = foldMerge r w) ∧
    (∀ w, w ∈ rows → w.residue ≠ [] →
      (∀ r ∈ rows, r.residue = [] → r.effect ≠ w.effect) →
      w ∉ foldSites rows) := by
  have hchar : ∀ m ∈ foldSites rows, ∃ r w, r ∈ rows ∧ r.residue = [] ∧ w ∈ rows ∧
      w.residue ≠ [] ∧ r.effect = w.effect ∧ m = foldMerge r w := by
    intro m hm
    rw [foldSites_both rows ⟨hw, hno⟩, List.mem_flatMap] at hm
    obtain ⟨r, hrf, hmem⟩ := hm
    rw [List.mem_filterMap] at hmem
    obtain ⟨w, hwf, hif⟩ := hmem
    have hrm := List.mem_filter.mp hrf
    have hwm := List.mem_filter.mp hwf
    by_cases heff : r.effect = w.effect
    · rw [if_pos heff] at hif
      exact ⟨r, w, hrm.1, by simpa using hrm.2, hwm.1, by simpa using hwm.2, heff,
        (Option.some.inj hif).symm⟩
    · rw [if_neg heff] at hif
      exact Option.noConfusion hif
  refine ⟨hchar, ?_⟩
  intro w hw1 hw2 hnomatch habs
  obtain ⟨r, w2, hr, hres, -, -, heff, heq⟩ := hchar w habs
  have heffw : w.effect = w2.effect := by
    have := congrArg Row.effect heq
    simpa [foldMerge] using this
  exact hnomatch r hr hres (by rw [heff, ← heffw])

/-- Witness for C10: a site-bearing row with an unmatched effect is dropped
when both partitions are non-empty. -/
theorem site_folding_matched_only_witness :
    wRowSiteOther ∉ foldSites [wRowNoSite, wRowSiteOther] :=
  (site_folding_matched_only [wRowNoSite, wRowSiteOther] (by decide) (by decide)).2
    wRowSiteOther (by decide) (by decide) (by decide)

theorem mem_insertKey (ks : List (PyStr × PyStr × PyStr)) (k0 k : PyStr × PyStr × PyStr) :
    k ∈ insertKey ks k0 ↔ k ∈ ks ∨ k = k0 := by
  rw [insertKey]
  by_cases h : k0 ∈ ks
  · rw [if_pos h]
    constructor
    · exact Or.inl
    · rintro (h1 | rfl)
      · exact h1
      · exact h
  · rw [if_neg h]
    simp

theorem insertKey_nodup (ks : List (PyStr × PyStr × PyStr)) (k0 : PyStr × PyStr × PyStr)
    (h : ks.Nodup) : (insertKey ks k0).Nodup := by
  rw [insertKey]
  by_cases hm : k0 ∈ ks
  · rw [if_pos hm]
    exact h
  · rw [if_neg hm]
    rw [List.nodup_append]
    exact ⟨h, List.nodup_singleton _, by simpa using hm⟩

theorem mem_foldl_insertKey (rows : List Row) :
    ∀ (ks0 : List (PyStr × PyStr × PyStr)) (k : PyStr × PyStr × PyStr),
      k ∈ rows.foldl (fun ks row => insertKey ks (rowKey row)) ks0 ↔
        k ∈ ks0 ∨ ∃ r ∈ rows, rowKey r = k := by
  induction rows with
  | nil => intro ks0 k; simp
  | cons r rest ih =>
    intro ks0 k
    rw [List.foldl_cons, ih, mem_insertKey]
    constructor
    · rintro ((h1 | rfl) | ⟨r2, hr2, hk2⟩)
      · exact Or.inl h1
      · exact Or.inr ⟨r, List.mem_cons_self _ _, rfl⟩
      · exact Or.inr ⟨r2, List.mem_cons_of_mem _ hr2, hk2⟩
    · rintro (h1 | ⟨r2, hr2, hk2⟩)
      · exact Or.inl (Or.inl h1)
      · rcases List.mem_cons.mp hr2 with rfl | hr3
        · exact Or.inl (Or.inr hk2.symm)
        · exact Or.inr ⟨r2, hr3, hk2⟩

theorem nodup_foldl_insertKey (rows : List Row) :
    ∀ ks0 : List (PyStr × PyStr × PyStr), ks0.Nodup →
      (rows.foldl (fun ks row => insertKey ks (rowKey row)) ks0).Nodup := by
  induction rows with
  | nil => intro ks0 h; exact h
  | cons r rest ih =>
    intro ks0 h
    rw [List.foldl_cons]
    exact ih _ (insertKey_nodup ks0 (rowKey r) h)

theorem mem_dictKeys (rows : List Row) (k : PyStr × PyStr × PyStr) :
    k ∈ dictKeys rows ↔ ∃ r ∈ rows, rowKey r = k := by
  rw [dictKeys, mem_foldl_insertKey]
  simp

theorem dictKeys_nodup (rows : List Row) : (dictKeys rows).Nodup :=
  nodup_foldl_insertKey rows [] List.nodup_nil

theorem emitGroup_key (rows : List Row) (k : PyStr × PyStr × PyStr) (m : Row)
    (hm : m ∈ emitGroup rows k) : rowKey m = k := by
  rw [emitGroup] at hm
  cases hg : groupRows rows k with
  | nil =>
    rw [hg] at hm
    exact absurd hm (List.not_mem_nil _)
  | cons row0 rest =>
    have hrow0 : row0 ∈ groupRows rows k := by
      rw [hg]
      exact List.mem_cons_self _ _
    have hk0 : rowKey row0 = k := by
      have := (List.mem_filter.mp hrow0).2
      simpa using this
    cases rest with
    | nil =>
      rw [hg] at hm
      simp only [List.mem_singleton] at hm
      subst hm
      exact hk0
    | cons r1 rs =>
      rw [hg] at hm
      simp only [List.mem_singleton] at hm
      subst hm
      exact hk0

theorem mem_flatMap_emitGroup (rows : List Row) (ks : List (PyStr × PyStr × PyStr))
    (k : PyStr × PyStr × PyStr) (hnd : ks.Nodup) (hk : k ∈ ks) :
    (ks.flatMap (emitGroup rows)).filter (fun m => rowKey m = k) = emitGroup rows k := by
  induction ks with
  | nil => exact absurd hk (List.not_mem_nil _)
  | cons k0 rest ih =>
    rw [List.flatMap_cons, List.filter_append]
    have hnd2 := List.nodup_cons.mp hnd
    rcases List.mem_cons.mp hk with rfl | hk2
    · have h1 : (emitGroup rows k).filter (fun m => rowKey m = k) = emitGroup rows k := by
        apply List.filter_eq_self.mpr
        intro m hm
        simp [emitGroup_key rows k m hm]
      have h2 : (rest.flatMap (emitGroup rows)).filter (fun m => rowKey m = k) = [] := by
        apply List.filter_eq_nil_iff.mpr
        intro m hm
        rw [List.mem_flatMap] at hm
        obtain ⟨k2, hk2m, hmk2⟩ := hm
        have := emitGroup_key rows k2 m hmk2
        subst this
        simp
        intro hc
        rw [hc] at hk2m
        exact hnd2.1 hk2m
      rw [h1, h2, List.append_nil]
    · have hne : k0 ≠ k := by
        intro hc
        rw [hc] at hnd2
        exact hnd2.1 hk2
      have h1 : (emitGroup rows k0).filter (fun m => rowKey m = k) = [] := by
        apply List.filter_eq_nil_iff.mpr
        intro m hm
        have := emitGroup_key rows k0 m hm
        subst this
        simp
        exact fun hc => hne hc
      rw [h1, List.nil_append]
      exact ih hnd2.2 hk2

theorem mergeIdentical_filter (rows : List Row) (k : PyStr × PyStr × PyStr)
    (hk : k ∈ dictKeys rows) :
    (mergeIdentical rows).filter (fun m => rowKey m = k) = emitGroup rows k :=
  mem_flatMap_emitGroup rows (dictKeys rows) k (dictKeys_nodup rows) hk

theorem mem_groupUnion_sentence (g : List Row) (hg : g ≠ []) (x : PyStr) :
    x ∈ pySplit '|' (pyJoin '|' (orderedNub ((g.map fun r => pySplit '|' r.sentence).flatten))) ↔
      ∃ r ∈ g, x ∈ pySplit '|' r.sentence := by
  have hne : (g.map fun r => pySplit '|' r.sentence).flatten ≠ [] := by
    cases g with
    | nil => exact absurd rfl hg
    | cons r rest =>
      intro hc
      apply pySplit_ne_nil '|' r.sentence
      rw [List.map_cons, List.flatten_cons] at hc
      exact (List.append_eq_nil.mp hc).1
  have hsep : ∀ p ∈ (g.map fun r => pySplit '|' r.sentence).flatten, '|' ∉ p := by
    intro p hp
    rw [List.mem_flatten] at hp
    obtain ⟨l, hl, hpl⟩ := hp
    rw [List.mem_map] at hl
    obtain ⟨r, -, rfl⟩ := hl
    exact not_mem_of_mem_pySplit '|' r.sentence p hpl
  rw [mem_pySplit_pyJoin_orderedNub '|' _ hne hsep, List.mem_flatten]
  constructor
  · rintro ⟨l, hl, hpl⟩
    rw [List.mem_map] at hl
    obtain ⟨r, hr, rfl⟩ := hl
    exact ⟨r, hr, hpl⟩
  · rintro ⟨r, hr, hx⟩
    exact ⟨_, List.mem_map_of_mem _ hr, hx⟩

theorem mergeIdentical_two (r1 r2 : Row) (hkey : rowKey r1 = rowKey r2) :
    mergeIdentical [r1, r2] =
      [{ r1 with sentence := pyJoin '|' (orderedNub
          (([r1, r2].map fun r => pySplit '|' r.sentence).flatten)) }] := by
  have hg : groupRows [r1, r2] (rowKey r1) = [r1, r2] := by
    rw [groupRows]
    simp [List.filter, hkey.symm]
  have hdk : dictKeys [r1, r2] = [rowKey r1] := by
    rw [dictKeys]
    simp [insertKey, hkey.symm]
  rw [mergeIdentical, hdk, List.flatMap_cons, List.flatMap_nil, List.append_nil]
  rw [emitGroup, hg]

/-- C4: identity-merging groups rows by `(EFFECT, MECHANISM, RESIDUE)`; a
size-one group passes through unchanged; a larger group yields exactly one
row, equal to the first group member except that SENTENCE becomes the union
of all members' `'|'`-split sentence sets; the resulting sentence set is
order-independent (commutative) and duplicate-free (idempotent): merging
sentences `"a|b"` and `"b|c"` on one key yields the set of `a`, `b`, `c`
whichever row comes first. -/
theorem identity_merging :
    (∀ (rows : List Row) (r : Row),
      groupRows rows (rowKey r) = [r] → r ∈ mergeIdentical rows) ∧
    (∀ (rows : List Row) (k : PyStr × PyStr × PyStr), 2 ≤ (groupRows rows k).length →
      (mergeIdentical rows).filter (fun m => rowKey m = k) =
        [{ (groupRows rows k).headD emptyRow with sentence := pyJoin '|' (orderedNub
            (((groupRows rows k).map fun r => pySplit '|' r.sentence).flatten)) }] ∧
      (∀ x, x ∈ pySplit '|' (pyJoin '|'
          (orderedNub (((groupRows rows k).map fun r => pySplit '|' r.sentence).flatten))) ↔
        ∃ r ∈ groupRows rows k, x ∈ pySplit '|' r.sentence)) ∧
    (∀ r1 r2 m1 m2 : Row, rowKey r1 = rowKey r2 →
      mergeIdentical [r1, r2] = [m1] → mergeIdentical [r2, r1] = [m2] →
      (∀ x, x ∈ pySplit '|' m1.sentence ↔
        x ∈ pySplit '|' r1.sentence ∨ x ∈ pySplit '|' r2.sentence) ∧
      (∀ x, x ∈ pySplit '|' m1.sentence ↔ x ∈ pySplit '|' m2.sentence)) ∧
    ((mergeIdentical [wRowAB, wRowBC]).map (fun m => (pySplit '|' m.sentence).toFinset) =
        [{pstr "a", pstr "b", pstr "c"}] ∧
      (mergeIdentical [wRowBC, wRowAB]).map (fun m => (pySplit '|' m.sentence).toFinset) =
        [{pstr "a", pstr "b", pstr "c"}]) := by
  refine ⟨?_, ?_, ?_, by decide, by decide⟩
  · intro rows r h
    have hr : r ∈ rows := by
      have hmem : r ∈ groupRows rows (rowKey r) := by
        rw [h]
        exact List.mem_cons_self _ _
      exact (List.mem_filter.mp hmem).1
    have hk : rowKey r ∈ dictKeys rows := (mem_dictKeys rows _).mpr ⟨r, hr, rfl⟩
    rw [mergeIdentical, List.mem_flatMap]
    refine ⟨rowKey r, hk, ?_⟩
    rw [emitGroup, h]
    exact List.mem_singleton.mpr rfl
  · intro rows k h2
    have hgne : groupRows rows k ≠ [] := by
      intro hc
      rw [hc] at h2
      simp at h2
    have hk : k ∈ dictKeys rows := by
      cases hg : groupRows rows k with
      | nil => exact absurd hg hgne
      | cons g0 gs =>
        have hg0 : g0 ∈ groupRows rows k := by
          rw [hg]
          exact List.mem_cons_self _ _
        have := List.mem_filter.mp hg0
        exact (mem_dictKeys rows k).mpr ⟨g0, this.1, by simpa using this.2⟩
    constructor
    · rw [mergeIdentical_filter rows k hk]
      cases hg : groupRows rows k with
      | nil => exact absurd hg hgne
      | cons g0 gs =>
        cases gs with
        | nil =>
          rw [hg] at h2
          simp at h2
        | cons g1 grest =>
          rw [emitGroup, hg]
          simp
    · exact mem_groupUnion_sentence (groupRows rows k) hgne
  · intro r1 r2 m1 m2 hkey h1 h2
    have e1 := mergeIdentical_two r1 r2 hkey
    rw [h1] at e1
    injection e1 with hm1 hrest1
    have e2 := mergeIdentical_two r2 r1 hkey.symm
    rw [h2] at e2
    injection e2 with hm2 hrest2
    have hs1 : ∀ x, x ∈ pySplit '|' m1.sentence ↔
        x ∈ pySplit '|' r1.sentence ∨ x ∈ pySplit '|' r2.sentence := by
      intro x
      rw [hm1]
      have hgu := mem_groupUnion_sentence [r1, r2] (by simp) x
      simpa using hgu
    have hs2 : ∀ x, x ∈ pySplit '|' m2.sentence ↔
        x ∈ pySplit '|' r2.sentence ∨ x ∈ pySplit '|' r1.sentence := by
      intro x
      rw [hm2]
      have hgu := mem_groupUnion_sentence [r2, r1] (by simp) x
      simpa using hgu
    refine ⟨hs1, fun x => ?_⟩
    rw [hs1 x, hs2 x]
    exact or_comm

/-- Witness for C4: a size-one group passes through. -/
theorem identity_merging_witness : wRowAB ∈ mergeIdentical [wRowAB] :=
  identity_merging.1 [wRowAB] wRowAB (by decide)

theorem load_ok {α β : Type} (decode : α → Option β) (repair : α → α) :
    ∀ (i : Nat) (s : α) (attempt max_attempts : Nat), attempt + i ≤ max_attempts →
      (∀ j < i, decode (repair^[j] s) = none) →
      ∀ v, decode (repair^[i] s) = some v →
      load_statement_json decode repair s attempt max_attempts = Except.ok v := by
  intro i
  induction i with
  | zero =>
    intro s attempt max_attempts ha hj v hv
    rw [load_statement_json]
    simp only [Function.iterate_zero, id_eq] at hv
    simp only [hv]
  | succ i ih =>
    intro s attempt max_attempts ha hj v hv
    rw [load_statement_json]
    have h0 : decode s = none := by simpa using hj 0 (Nat.succ_pos i)
    simp only [h0]
    rw [dif_pos (by omega)]
    apply ih (repair s) (attempt + 1) max_attempts (by omega)
    · intro j hji
      have hjj := hj (j + 1) (by omega)
      rwa [Function.iterate_succ_apply] at hjj
    · rwa [Function.iterate_succ_apply] at hv

theorem load_err {α β : Type} (decode : α → Option β) (repair : α → α) :
    ∀ (k : Nat) (s : α) (attempt max_attempts : Nat), max_attempts - attempt = k →
      (∀ j ≤ k, decode (repair^[j] s) = none) →
      load_statement_json decode repair s attempt max_attempts = Except.error () := by
  intro k
  induction k with
  | zero =>
    intro s attempt max_attempts hk hj
    rw [load_statement_json]
    have h0 : decode s = none := by simpa using hj 0 (Nat.le_refl 0)
    simp only [h0]
    rw [dif_neg (by omega)]
  | succ k ih =>
    intro s attempt max_attempts hk hj
    rw [load_statement_json]
    have h0 : decode s = none := by simpa using hj 0 (Nat.zero_le _)
    simp only [h0]
    rw [dif_pos (by omega)]
    apply ih (repair s) (attempt + 1) max_attempts (by omega)
    intro j hj2
    have hjj := hj (j + 1) (by omega)
    rwa [Function.iterate_succ_apply] at hjj

/-- C9: starting from attempt 1 with the default cap of 5, the loader makes
at most 5 decode attempts, applying the repair step once before each retry;
if the i-th repaired string (i < 5) is the first to decode, its value is
returned; if all 5 attempts fail, the result is the fatal error of the
trailing `raise ValueError`. -/
theorem json_decode_retry {α β : Type} (decode : α → Option β) (repair : α → α) (s : α) :
    ((∀ i < 5, decode (repair^[i] s) = none) →
      load_statement_json decode repair s 1 5 = Except.error ()) ∧
    (∀ i v, i < 5 → decode (repair^[i] s) = some v →
      (∀ j < i, decode (repair^[j] s) = none) →
      load_statement_json decode repair s 1 5 = Except.ok v) := by
  constructor
  · intro h
    apply load_err decode repair 4 s 1 5 rfl
    intro j hj
    exact h j (by omega)
  · intro i v hi hv hj
    exact load_ok decode repair i s 1 5 (by omega) hj v hv

/-- Witness for C9: a decoder succeeding after three repairs, and one never
succeeding. -/
theorem json_decode_retry_witness :
    load_statement_json wDecode wRepair 3 1 5 = Except.ok 7 ∧
    load_statement_json wDecode wRepair 9 1 5 = Except.error () :=
  ⟨(json_decode_retry wDecode wRepair 3).2 3 7 (by decide) (by decide) (by decide),
   (json_decode_retry wDecode wRepair 9).1 (by decide)⟩
